import Mathlib

/-
A shallow embedding of `src/Restify.js` (the Restify class): the schema
resolution performed by the constructor, the relation-inverse algebra, the
SQL statement builders, the introspection helpers, and the `reset`/`sync`
workflows; followed by theorems about them.

JavaScript objects are modelled as insertion-ordered association lists with
unique keys; `for..in` enumeration is modelled as iteration over a snapshot
of the keys taken when the loop starts (keys added during the loop are not
visited, overwritten keys are read at their current value), matching the
enumeration semantics of plain string-keyed objects.
-/

/-- Values the code stores in the `nullable` attribute of a field
descriptor: booleans (Restify.js lines 54 and 71) and the string literal
`'false'` (line 47). -/
inductive NVal where
  | bool : Bool → NVal
  | str : String → NVal
deriving DecidableEq, Repr

/-- Errors surfaced by the embedded code. `thrown msg` models an explicit
`throw new Error(msg)`; `typeError` models the TypeError raised when the
code dereferences `undefined` (writing a property of it, `Object.keys` of
it, or calling a method on it). -/
inductive JsError where
  | thrown : String → JsError
  | typeError : JsError
deriving DecidableEq, Repr

/-- A field descriptor, as documented at the top of Restify.js: `type`,
optional `nullable`, optional `relation`, optional `as`, plus the `master`
flag the constructor writes. `none` models an absent (undefined) attribute;
`master` defaults to `false` since an absent attribute is falsy. -/
structure FieldDescr where
  type : String
  nullable : Option NVal := none
  relation : Option String := none
  as : Option String := none
  master : Bool := false
deriving DecidableEq, Repr

/-- A collection: a JS object mapping field names to field descriptors. -/
abbrev Collection := List (String × FieldDescr)

/-- A schema document / resolved schema: a JS object mapping collection
names to collections. -/
abbrev Schema := List (String × Collection)

/-- Lookup of `m[k]` on a JS object, `none` when the property is absent. -/
def getKey {α : Type} : List (String × α) → String → Option α
  | [], _ => none
  | (k', v) :: rest, k => if k' = k then some v else getKey rest k

/-- Assignment `m[k] = v` on a JS object: overwrites in place when the key
exists (keeping its position), appends the new key otherwise. -/
def setKey {α : Type} : List (String × α) → String → α → List (String × α)
  | [], k, v => [(k, v)]
  | (k', v') :: rest, k, v =>
      if k' = k then (k, v) :: rest else (k', v') :: setKey rest k v

/-- `Object.keys m` / the `for..in` key snapshot. -/
def keysOf {α : Type} (m : List (String × α)) : List String := m.map Prod.fst

def ONE_TO_ONE : String := "OneToOne"

def ONE_TO_MANY : String := "OneToMany"

def MANY_TO_ONE : String := "ManyToOne"

def MANY_TO_MANY : String := "ManyToMany"

/-- `Restify.invRelation` (lines 140-152): the switch over the four relation
kinds; the default branch throws `Error("Undefined relation ...")`. -/
def invRelation (relation : String) : Except JsError String :=
  if relation = ONE_TO_ONE then .ok relation
  else if relation = MANY_TO_MANY then .ok relation
  else if relation = ONE_TO_MANY then .ok MANY_TO_ONE
  else if relation = MANY_TO_ONE then .ok ONE_TO_MANY
  else .error (.thrown ("Undefined relation " ++ relation ++ "."))

/-- The property key used by `this._collections[field.type][field.as]`:
when `as` is absent, JS coerces `undefined` to the string "undefined". -/
def asKeyOf (d : FieldDescr) : String := d.as.getD "undefined"

/-- The implicit identity descriptor the constructor assigns at line 45:
`{ type: 'int', nullable: 'false' }` — note the quoted string `'false'`. -/
def idDescr : FieldDescr := { type := "int", nullable := some (.str "false") }

/-- The first-pass update of one field (lines 53-59): default `nullable`
to `true` when absent, mark the field `master` when `relation` is set. -/
def pass1Field (d : FieldDescr) : FieldDescr :=
  let d := if d.nullable = none then { d with nullable := some (.bool true) } else d
  if d.relation ≠ none then { d with master := true } else d

/-- First pass over one collection (lines 42-61): insert `_id`, then run
`pass1Field` on every field (the loop snapshot includes the fresh `_id`,
whose attributes it leaves unchanged). -/
def pass1Collection (c : Collection) : Collection :=
  (setKey c "_id" idDescr).map (fun p => (p.1, pass1Field p.2))

/-- One step of field copying for `JSON.parse(JSON.stringify(..))`. -/
def copyField (d : FieldDescr) : FieldDescr :=
  { type := d.type, nullable := d.nullable, relation := d.relation,
    as := d.as, master := d.master }

/-- `JSON.parse(JSON.stringify(doc))` (line 39): on this value universe a
structural deep copy; crucially it yields a fresh object graph that does
not alias the caller's document. -/
def jsonRoundTrip (s : Schema) : Schema :=
  s.map (fun p => (p.1, p.2.map (fun q => (q.1, copyField q.2))))

/-- The mutable state of the constructor: the caller's `config.schema`
object and the service's `this._collections`. `aliased` records whether
the two are the same object: writes to `this._collections` are visible
through the caller's reference exactly when they alias. The deep copy at
line 39 makes `aliased = false`. -/
structure Store where
  caller : Schema
  heap : Schema
  aliased : Bool

/-- A write to `this._collections` (or to an object reachable from it):
when the heap aliases the caller's document the caller observes the write. -/
def writeHeap (s : Store) (d : Schema) : Store :=
  { caller := if s.aliased then d else s.caller, heap := d, aliased := s.aliased }

/-- The derived inverse descriptor assigned at lines 69-74. -/
def mkDerived (collectionName fieldName inv : String) : FieldDescr :=
  { type := collectionName, nullable := some (.bool false),
    relation := some inv, as := some fieldName }

/-- The body of the second-pass inner loop (lines 66-76) for one field
name. JS evaluates the assignment's right-hand side (the `invRelation`
call) before the write, so an invalid relation kind throws before the
TypeError from writing a property of `undefined` (absent target
collection). A thrown error stops the constructor with the store as it
stands. -/
def deriveField (s : Store) (collectionName fieldName : String) :
    Store × Option JsError :=
  match getKey s.heap collectionName with
  | none => (s, none)
  | some collection =>
    match getKey collection fieldName with
    | none => (s, none)
    | some field =>
      if field.master then
        match field.relation with
        | none => (s, some (.thrown "Undefined relation undefined."))
        | some rel =>
          match invRelation rel with
          | .error e => (s, some e)
          | .ok inv =>
            match getKey s.heap field.type with
            | none => (s, some .typeError)
            | some targetColl =>
              (writeHeap s (setKey s.heap field.type
                (setKey targetColl (asKeyOf field)
                  (mkDerived collectionName fieldName inv))), none)
      else (s, none)

/-- The second-pass inner loop over a snapshot of field names. -/
def deriveFields (collectionName : String) :
    Store → List String → Store × Option JsError
  | s, [] => (s, none)
  | s, fn :: rest =>
    match deriveField s collectionName fn with
    | (s', some e) => (s', some e)
    | (s', none) => deriveFields collectionName s' rest

/-- The second-pass body for one collection (lines 63-77): snapshot the
field names of the collection as it stands, then derive inverse fields. -/
def deriveCollection (s : Store) (collectionName : String) :
    Store × Option JsError :=
  match getKey s.heap collectionName with
  | none => (s, none)
  | some collection => deriveFields collectionName s (keysOf collection)

/-- The second-pass outer loop over a snapshot of collection names. -/
def pass2 : Store → List String → Store × Option JsError
  | s, [] => (s, none)
  | s, cn :: rest =>
    match deriveCollection s cn with
    | (s', some e) => (s', some e)
    | (s', none) => pass2 s' rest

/-- `config.database` as read at lines 32-37. -/
structure DatabaseConfig where
  host : String
  user : String
  pass : String
  db : String
deriving DecidableEq, Repr

/-- The constructor argument. -/
structure Config where
  database : DatabaseConfig
  schema : Schema

/-- A connection handle exposing the escaping primitives; relevant only in
that `this.conn` on the Restify object is never assigned by any code path,
so `escId`/`escVal` always find `undefined` there. -/
structure ConnHandle where
  escapeId : String → String
  escape : String → String

/-- The Restify service object: the two attributes the constructor assigns
plus `this.conn`, which no code path ever assigns (`connect()` returns a
fresh Connection object without storing it on `this`). -/
structure Restify where
  _database : DatabaseConfig
  _collections : Schema
  conn : Option ConnHandle

/-- The store right after line 39: heap = fresh deep copy of the caller's
document, hence not aliased to it. -/
def initialStore (config : Config) : Store :=
  { caller := config.schema, heap := jsonRoundTrip config.schema,
    aliased := false }

/-- The store after the first pass (lines 42-61), its per-collection
mutations taken together as one heap write. -/
def pass1Store (s : Store) : Store :=
  writeHeap s (s.heap.map (fun p => (p.1, pass1Collection p.2)))

/-- The constructor (lines 28-78), returning the outcome together with the
caller's `config.schema` as it stands after the call (also when the
constructor throws part-way). -/
def runConstructor (config : Config) : Except JsError Restify × Schema :=
  match pass2 (pass1Store (initialStore config))
      (keysOf (pass1Store (initialStore config)).heap) with
  | (s2, some e) => (.error e, s2.caller)
  | (s2, none) =>
      (.ok { _database :=
               { host := config.database.host, user := config.database.user,
                 pass := config.database.pass, db := config.database.db },
             _collections := s2.heap, conn := none }, s2.caller)

/-- The constructor's result alone. -/
def construct (config : Config) : Except JsError Restify :=
  (runConstructor config).1

def defaultDb : DatabaseConfig := { host := "", user := "", pass := "", db := "" }

/-- Schema resolution as a function of the schema document alone (the
database part of the configuration plays no role in resolution). -/
def resolve (doc : Schema) : Except JsError Schema :=
  match construct { database := defaultDb, schema := doc } with
  | .error e => .error e
  | .ok r => .ok r._collections

namespace Restify

/-- `Restify.collections` (lines 85-87). -/
def collections (r : Restify) : List String := keysOf r._collections

/-- `Restify.fields` (lines 95-97): `Object.keys(this._collections[collection])`
throws a TypeError when the collection is absent (`Object.keys(undefined)`). -/
def fields (r : Restify) (collection : String) : Except JsError (List String) :=
  match getKey r._collections collection with
  | none => .error .typeError
  | some c => .ok (keysOf c)

/-- `Restify.escId` (lines 154-156): `this.conn.escapeId(id)`; `this.conn`
is `undefined` whenever it was never assigned, giving a TypeError. -/
def escId (r : Restify) (i : String) : Except JsError String :=
  match r.conn with
  | none => .error .typeError
  | some c => .ok (c.escapeId i)

/-- `Restify.escVal` (lines 158-160): `this.conn.escape(val)`. -/
def escVal (r : Restify) (v : String) : Except JsError String :=
  match r.conn with
  | none => .error .typeError
  | some c => .ok (c.escape v)

end Restify

/-- The external `mysql` module's escaping primitives, left abstract: the
statement builders are parametrised by them. -/
structure MysqlLib where
  escapeId : String → String
  escape : String → String
  escapeNum : Nat → String

/-- `Restify.stmtCreateTable` (lines 167-171), verbatim concatenation. -/
def stmtCreateTable (m : MysqlLib) (table : String) : String :=
  "CREATE TABLE IF NOT EXISTS " ++ m.escapeId table ++ " ("
    ++ "id int, PRIMARY KEY(id)" ++ ");"

/-- `Restify.stmtSelectTableName` (lines 173-177). -/
def stmtSelectTableName (m : MysqlLib) (db : String) : String :=
  "SELECT table_name " ++ "FROM information_schema.tables "
    ++ "WHERE table_schema=" ++ m.escape db ++ ";"

/-- `Restify.stmtSetForeignKeyCheck` (lines 179-181): escapes the number
`state ? 1 : 0`. -/
def stmtSetForeignKeyCheck (m : MysqlLib) (state : Bool) : String :=
  "SET FOREIGN_KEY_CHECKS=" ++ m.escapeNum (if state then 1 else 0) ++ ";"

/-- `Restify.stmtDropTable` (lines 183-185). -/
def stmtDropTable (m : MysqlLib) (table : String) : String :=
  "DROP TABLE " ++ m.escapeId table ++ ";"

/-- Observable events on the connection opened by `reset`/`sync`:
statement executions and `conn.end()`. -/
inductive ConnEvent where
  | exec : String → ConnEvent
  | endConn : ConnEvent
deriving DecidableEq, Repr

/-- The database's responses, one per executed statement: either rows
(modelled as the `table_name` column) or a rejection. -/
abbrev DbOracle := String → Except String (List String)

/-- The drop loop of `reset` (lines 109-111). -/
def dropAll (m : MysqlLib) (oracle : DbOracle) :
    List String → List ConnEvent × Except String Unit
  | [] => ([], .ok ())
  | t :: rest =>
    match oracle (stmtDropTable m t) with
    | .error e => ([.exec (stmtDropTable m t)], .error e)
    | .ok _ =>
      (.exec (stmtDropTable m t) :: (dropAll m oracle rest).1,
       (dropAll m oracle rest).2)

/-- The create loop of `sync` (lines 126-128). -/
def createAll (m : MysqlLib) (oracle : DbOracle) :
    List String → List ConnEvent × Except String Unit
  | [] => ([], .ok ())
  | t :: rest =>
    match oracle (stmtCreateTable m t) with
    | .error e => ([.exec (stmtCreateTable m t)], .error e)
    | .ok _ =>
      (.exec (stmtCreateTable m t) :: (createAll m oracle rest).1,
       (createAll m oracle rest).2)

namespace Restify

/-- `Restify.reset` (lines 104-115): the sequence of awaited statement
executions, in program order, followed by `conn.end()`; a rejected
execution propagates immediately — there is no try/finally, so no
`conn.end()` happens on that path. Returns the event trace on the
connection together with the outcome. -/
def reset (m : MysqlLib) (r : Restify) (oracle : DbOracle) :
    List ConnEvent × Except String Unit :=
  let sql1 := stmtSelectTableName m r._database.db
  match oracle sql1 with
  | .error e => ([.exec sql1], .error e)
  | .ok tableNames =>
    let sql2 := stmtSetForeignKeyCheck m false
    match oracle sql2 with
    | .error e => ([.exec sql1, .exec sql2], .error e)
    | .ok _ =>
      match dropAll m oracle tableNames with
      | (evs, .error e) => (.exec sql1 :: .exec sql2 :: evs, .error e)
      | (evs, .ok _) =>
        let sql3 := stmtSetForeignKeyCheck m true
        match oracle sql3 with
        | .error e => (.exec sql1 :: .exec sql2 :: evs ++ [.exec sql3], .error e)
        | .ok _ =>
            (.exec sql1 :: .exec sql2 :: evs ++ [.exec sql3, .endConn], .ok ())

/-- `Restify.sync` (lines 123-131): creates one table per collection, then
`conn.end()`; the `update` parameter appears in the signature but is never
read by the body. As in `reset`, a rejected execution propagates with no
`conn.end()`. -/
def sync (m : MysqlLib) (r : Restify) (update : Option Bool)
    (oracle : DbOracle) : List ConnEvent × Except String Unit :=
  match createAll m oracle (keysOf r._collections) with
  | (evs, .error e) => (evs, .error e)
  | (evs, .ok _) => (evs ++ [.endConn], .ok ())

end Restify


/-
Association-list lemmas used throughout.
-/

@[simp] theorem keysOf_nil {α : Type} : keysOf ([] : List (String × α)) = [] := rfl

@[simp] theorem keysOf_cons {α : Type} (a : String) (b : α) (m : List (String × α)) :
    keysOf ((a, b) :: m) = a :: keysOf m := rfl

theorem getKey_setKey_self {α : Type} (m : List (String × α)) (k : String) (v : α) :
    getKey (setKey m k v) k = some v := by
  induction m with
  | nil => simp [setKey, getKey]
  | cons p rest ih =>
    obtain ⟨k0, v0⟩ := p
    by_cases h0 : k0 = k
    · simp [setKey, h0, getKey]
    · simp [setKey, h0, getKey, ih]

theorem getKey_setKey_ne {α : Type} (m : List (String × α)) (k k' : String) (v : α)
    (h : k' ≠ k) : getKey (setKey m k v) k' = getKey m k' := by
  have hne : ¬ (k = k') := fun hh => h hh.symm
  induction m with
  | nil => simp [setKey, getKey, hne]
  | cons p rest ih =>
    obtain ⟨k0, v0⟩ := p
    by_cases h0 : k0 = k
    · subst h0
      simp [setKey, getKey, hne]
    · by_cases h1 : k0 = k'
      · simp [setKey, getKey, h, h1]
      · simp [setKey, getKey, h0, h1, ih]

theorem keysOf_setKey_mem {α : Type} (m : List (String × α)) (k : String) (v : α) :
    k ∈ keysOf m → keysOf (setKey m k v) = keysOf m := by
  induction m with
  | nil => intro h; simp at h
  | cons p rest ih =>
    obtain ⟨k0, v0⟩ := p
    intro h
    by_cases h0 : k0 = k
    · subst h0
      simp [setKey]
    · have hrest : k ∈ keysOf rest := by
        rw [keysOf_cons] at h
        rcases List.mem_cons.mp h with h1 | h1
        · exact absurd h1.symm h0
        · exact h1
      simp [setKey, h0, ih hrest]

theorem keysOf_setKey_not_mem {α : Type} (m : List (String × α)) (k : String) (v : α) :
    k ∉ keysOf m → keysOf (setKey m k v) = keysOf m ++ [k] := by
  induction m with
  | nil => intro _; simp [setKey]
  | cons p rest ih =>
    obtain ⟨k0, v0⟩ := p
    intro h
    rw [keysOf_cons] at h
    have h0 : k0 ≠ k := fun hh => h (by rw [hh]; exact List.mem_cons_self _ _)
    have hrest : k ∉ keysOf rest := fun hh => h (List.mem_cons_of_mem _ hh)
    simp [setKey, h0, ih hrest]

theorem getKey_eq_none_iff {α : Type} (m : List (String × α)) (k : String) :
    getKey m k = none ↔ k ∉ keysOf m := by
  induction m with
  | nil => simp [getKey]
  | cons p rest ih =>
    obtain ⟨k0, v0⟩ := p
    by_cases h0 : k0 = k
    · subst h0
      simp [getKey]
    · have h1 : ¬ k = k0 := fun hh => h0 hh.symm
      simp [getKey, h0, h1, ih]

theorem getKey_isSome_of_mem {α : Type} (m : List (String × α)) (k : String)
    (h : k ∈ keysOf m) : ∃ v, getKey m k = some v := by
  rcases hv : getKey m k with _ | v
  · exact absurd h ((getKey_eq_none_iff m k).mp hv)
  · exact ⟨v, rfl⟩

theorem getKey_ne_none_of_mem {α : Type} (m : List (String × α)) (k : String)
    (h : k ∈ keysOf m) : getKey m k ≠ none := by
  intro hn
  exact ((getKey_eq_none_iff m k).mp hn) h

theorem mem_keysOf_of_getKey {α : Type} (m : List (String × α)) (k : String) (v : α)
    (h : getKey m k = some v) : k ∈ keysOf m := by
  by_contra hc
  rw [← getKey_eq_none_iff] at hc
  rw [h] at hc
  exact Option.noConfusion hc

theorem getKey_map {α β : Type} (g : α → β) (m : List (String × α)) (k : String) :
    getKey (m.map (fun p => (p.1, g p.2))) k = (getKey m k).map g := by
  induction m with
  | nil => simp [getKey]
  | cons p rest ih =>
    obtain ⟨k0, v0⟩ := p
    by_cases h0 : k0 = k
    · simp [getKey, h0]
    · simp [getKey, h0, ih]

theorem keysOf_map {α β : Type} (g : α → β) (m : List (String × α)) :
    keysOf (m.map (fun p => (p.1, g p.2))) = keysOf m := by
  induction m with
  | nil => rfl
  | cons p rest ih =>
    obtain ⟨k0, v0⟩ := p
    simp only [List.map_cons, keysOf_cons, ih]

theorem mem_of_getKey_eq_some {α : Type} (m : List (String × α)) (k : String) (v : α)
    (h : getKey m k = some v) : (k, v) ∈ m := by
  induction m with
  | nil => simp [getKey] at h
  | cons p rest ih =>
    obtain ⟨k0, v0⟩ := p
    by_cases h0 : k0 = k
    · subst h0
      simp [getKey] at h
      simp [h]
    · simp [getKey, h0] at h
      exact List.mem_cons_of_mem _ (ih h)

theorem copyField_eq (d : FieldDescr) : copyField d = d := rfl

theorem copyColl_eq (c : Collection) : c.map (fun q => (q.1, copyField q.2)) = c := by
  induction c with
  | nil => rfl
  | cons q rest ih =>
    obtain ⟨fn, d⟩ := q
    rw [List.map_cons, ih, copyField_eq]

theorem jsonRoundTrip_eq (s : Schema) : jsonRoundTrip s = s := by
  unfold jsonRoundTrip
  induction s with
  | nil => rfl
  | cons p rest ih =>
    obtain ⟨n, c⟩ := p
    rw [List.map_cons, copyColl_eq, ih]

/-
Concrete documents and escaping instances used by the theorems below.
-/

/-- An identifier/value escaper that returns bare words unchanged, as the
spec's statement-shape examples assume. -/
def plainEsc : MysqlLib :=
  { escapeId := fun s => s, escape := fun s => s, escapeNum := fun n => toString n }

def cfg0 : Config := { database := defaultDb, schema := [] }

/-- A service over the empty schema, as the constructor produces it. -/
def r0c : Restify := { _database := defaultDb, _collections := [], conn := none }

/-- A document where a master field's `as` names a field already declared
on the target collection. -/
def docC6 : Schema :=
  [("A", [("f", { type := "B", relation := some "OneToOne", as := some "r" })]),
   ("B", [("r", { type := "string" })])]

/-- What the constructor makes of `docC6`: the declared `B.r` is replaced
by the derived inverse field. -/
def resolvedC6 : Schema :=
  [("A", [("f", { type := "B", nullable := some (.bool true),
                  relation := some "OneToOne", as := some "r", master := true }),
          ("_id", idDescr)]),
   ("B", [("r", mkDerived "A" "f" "OneToOne"),
          ("_id", idDescr)])]

/-- Two master fields on `A` deriving the same remote name `r` on `B`. -/
def docC2bad : Schema :=
  [("A", [("f1", { type := "B", relation := some "OneToOne", as := some "r" }),
          ("f2", { type := "B", relation := some "OneToOne", as := some "r" })]),
   ("B", [])]

/-- What the constructor makes of `docC2bad`: `B.r` carries `as = "f2"`,
the later master's name; the inverse field for `f1` is gone. -/
def resolvedC2bad : Schema :=
  [("A", [("f1", { type := "B", nullable := some (.bool true),
                   relation := some "OneToOne", as := some "r", master := true }),
          ("f2", { type := "B", nullable := some (.bool true),
                   relation := some "OneToOne", as := some "r", master := true }),
          ("_id", idDescr)]),
   ("B", [("_id", idDescr),
          ("r", mkDerived "A" "f2" "OneToOne")])]

/-- `B.g` is processed before `A.f` and its derived field overwrites the
master field `A.f` whose `type` names the absent collection "Nope". -/
def docC8bad : Schema :=
  [("B", [("g", { type := "A", relation := some "OneToOne", as := some "f" })]),
   ("A", [("f", { type := "Nope", relation := some "OneToOne", as := some "x" })])]

/-- What the constructor makes of `docC8bad`: resolution succeeds even
though the document contains a master field referencing "Nope". -/
def resolvedC8bad : Schema :=
  [("B", [("g", { type := "A", nullable := some (.bool true),
                  relation := some "OneToOne", as := some "f", master := true }),
          ("_id", idDescr)]),
   ("A", [("f", mkDerived "B" "g" "OneToOne"),
          ("_id", idDescr)])]

/-- C3: the relation-inverse operation maps OneToOne to OneToOne,
ManyToMany to ManyToMany, OneToMany to ManyToOne and ManyToOne to
OneToMany; it is an involution on the four recognized kinds; and on any
other input it fails with the unknown-relation-kind error the code throws
(`Error("Undefined relation <r>.")`). -/
theorem c3_invRelation_algebra :
    invRelation "OneToOne" = .ok "OneToOne" ∧
    invRelation "ManyToMany" = .ok "ManyToMany" ∧
    invRelation "OneToMany" = .ok "ManyToOne" ∧
    invRelation "ManyToOne" = .ok "OneToMany" ∧
    (∀ k : String,
      k = "OneToOne" ∨ k = "OneToMany" ∨ k = "ManyToOne" ∨ k = "ManyToMany" →
      (invRelation k).bind invRelation = .ok k) ∧
    (∀ r : String, r ≠ "OneToOne" → r ≠ "OneToMany" → r ≠ "ManyToOne" →
      r ≠ "ManyToMany" →
      invRelation r = .error (.thrown ("Undefined relation " ++ r ++ "."))) := by
  refine ⟨rfl, rfl, rfl, rfl, ?_, ?_⟩
  · rintro k (rfl | rfl | rfl | rfl) <;> rfl
  · intro r h1 h2 h3 h4
    simp [invRelation, ONE_TO_ONE, ONE_TO_MANY, MANY_TO_ONE, MANY_TO_MANY,
      h1, h2, h3, h4]

theorem c3_invRelation_algebra_witness :
    ((invRelation "OneToMany").bind invRelation = .ok "OneToMany") ∧
    invRelation "Friend" =
      .error (.thrown ("Undefined relation " ++ "Friend" ++ ".")) :=
  ⟨c3_invRelation_algebra.2.2.2.2.1 "OneToMany" (Or.inr (Or.inl rfl)),
   c3_invRelation_algebra.2.2.2.2.2 "Friend" (by decide) (by decide) (by decide)
     (by decide)⟩

/-- C4 counterexample: with an escaper that returns bare words unchanged,
`stmtCreateTable "users"` is not the string the claim demands — the code
emits the column as `id int`, not `id INTEGER`. -/
theorem c4_counterexample :
    stmtCreateTable plainEsc "users" ≠
      "CREATE TABLE IF NOT EXISTS users (id INTEGER, PRIMARY KEY(id));" := by
  decide

/-- C4 amended: under an identifier-escaping primitive that returns
bare-word identifiers unchanged, `stmtCreateTable "users"` returns exactly
`CREATE TABLE IF NOT EXISTS users (id int, PRIMARY KEY(id));`. -/
theorem c4_create_table_users :
    stmtCreateTable plainEsc "users" =
      "CREATE TABLE IF NOT EXISTS users (id int, PRIMARY KEY(id));" := rfl

/-- C1: the implicit `_id` field added to every collection carries
`type = 'int'` but `nullable = 'false'` — the JavaScript STRING `'false'`
(a truthy value), not the boolean `false` the spec states; shown on the
one-collection document. -/
theorem c1_id_nullable_is_string_false :
    resolve [("A", [])] =
      .ok [("A", [("_id", { type := "int", nullable := some (.str "false") })])] ∧
    NVal.str "false" ≠ NVal.bool false := by
  exact ⟨rfl, by decide⟩

/-- C6 counterexample: on `docC6`, where the derived inverse name `r`
collides with the declared field `B.r`, construction does not fail at all —
it succeeds (so no RelationNameConflict is surfaced). -/
theorem c6_counterexample : resolve docC6 = .ok resolvedC6 := rfl

/-- C6 amended: on a name collision resolution does not fail; the
pre-existing field on the target collection is silently overwritten by the
derived inverse field (the declared string field `B.r` is gone, replaced by
the derived descriptor). -/
theorem c6_silent_overwrite :
    resolve docC6 = .ok resolvedC6 ∧
    getKey docC6 "B" = some [("r", { type := "string" })] ∧
    (getKey resolvedC6 "B").bind (fun c => getKey c "r") =
      some (mkDerived "A" "f" "OneToOne") ∧
    mkDerived "A" "f" "OneToOne" ≠ ({ type := "string" } : FieldDescr) := by
  refine ⟨rfl, rfl, rfl, by decide⟩

/-- C9: `sync` never reads its `update` argument, so any two values of it
(including an omitted one, `none`) yield the same statement trace and the
same result against the same service state and database responses. -/
theorem c9_sync_independent_of_update (m : MysqlLib) (r : Restify)
    (u1 u2 : Option Bool) (oracle : DbOracle) :
    Restify.sync m r u1 oracle = Restify.sync m r u2 oracle := rfl

theorem construct_conn_none (config : Config) (r : Restify)
    (h : construct config = .ok r) : r.conn = none := by
  unfold construct runConstructor at h
  split at h
  · simp at h
  · simp at h
    rw [← h]

/-- C10: on any service the constructor returns, both escaping helpers
fail with a TypeError for every input: they dereference `this.conn`, which
the constructor leaves unassigned and which no other operation (all of
them read-only on the service object) ever assigns. -/
theorem c10_escape_helpers_always_fail (config : Config) (r : Restify)
    (h : construct config = .ok r) (i v : String) :
    Restify.escId r i = .error .typeError ∧
    Restify.escVal r v = .error .typeError := by
  have hc := construct_conn_none config r h
  exact ⟨by simp [Restify.escId, hc], by simp [Restify.escVal, hc]⟩

theorem c10_escape_helpers_always_fail_witness :
    Restify.escId r0c "some_table" = .error .typeError ∧
    Restify.escVal r0c "some value" = .error .typeError :=
  c10_escape_helpers_always_fail cfg0 r0c rfl "some_table" "some value"

/-
C5: scoped mutation never reaches the caller's document.
-/

theorem writeHeap_caller (s : Store) (d : Schema) (h : s.aliased = false) :
    (writeHeap s d).caller = s.caller := by
  simp [writeHeap, h]

theorem writeHeap_aliased (s : Store) (d : Schema) :
    (writeHeap s d).aliased = s.aliased := rfl

theorem deriveField_caller (s : Store) (cn fn : String) (h : s.aliased = false) :
    (deriveField s cn fn).1.caller = s.caller ∧
    (deriveField s cn fn).1.aliased = false := by
  unfold deriveField
  repeat' split
  all_goals simp [writeHeap, h]

theorem deriveFields_caller (cn : String) (fns : List String) (s : Store)
    (h : s.aliased = false) :
    (deriveFields cn s fns).1.caller = s.caller ∧
    (deriveFields cn s fns).1.aliased = false := by
  induction fns generalizing s with
  | nil => exact ⟨rfl, h⟩
  | cons fn rest ih =>
    have hd := deriveField_caller s cn fn h
    unfold deriveFields
    rcases hf : deriveField s cn fn with ⟨s', oe⟩
    rw [hf] at hd
    cases oe with
    | some e => exact hd
    | none =>
      have hrec := ih s' hd.2
      simp only []
      exact ⟨hrec.1.trans hd.1, hrec.2⟩

theorem deriveCollection_caller (s : Store) (cn : String) (h : s.aliased = false) :
    (deriveCollection s cn).1.caller = s.caller ∧
    (deriveCollection s cn).1.aliased = false := by
  unfold deriveCollection
  split
  · exact ⟨rfl, h⟩
  · exact deriveFields_caller _ _ _ h

theorem pass2_caller (names : List String) (s : Store) (h : s.aliased = false) :
    (pass2 s names).1.caller = s.caller ∧ (pass2 s names).1.aliased = false := by
  induction names generalizing s with
  | nil => exact ⟨rfl, h⟩
  | cons cn rest ih =>
    have hd := deriveCollection_caller s cn h
    unfold pass2
    rcases hc : deriveCollection s cn with ⟨s', oe⟩
    rw [hc] at hd
    cases oe with
    | some e => exact hd
    | none =>
      have hrec := ih s' hd.2
      simp only []
      exact ⟨hrec.1.trans hd.1, hrec.2⟩

/-- C5: for every configuration, the caller's schema document is exactly
what it was before the constructor ran — whether construction succeeds or
throws part-way. The deep copy at line 39 means `this._collections` does
not alias `config.schema`, so none of the constructor's writes reach it. -/
theorem c5_input_document_never_mutated (config : Config) :
    (runConstructor config).2 = config.schema := by
  unfold runConstructor
  have h0 : (pass1Store (initialStore config)).aliased = false := rfl
  have h1 : (pass1Store (initialStore config)).caller = config.schema := rfl
  have hp := pass2_caller (keysOf (pass1Store (initialStore config)).heap)
    (pass1Store (initialStore config)) h0
  rcases hq : pass2 (pass1Store (initialStore config))
      (keysOf (pass1Store (initialStore config)).heap) with ⟨s2, oe⟩
  rw [hq] at hp
  cases oe with
  | some e => simpa [h1] using hp.1
  | none => simpa [h1] using hp.1

/-
C7: connection-release behaviour of reset and sync.
-/

theorem dropAll_no_end (m : MysqlLib) (oracle : DbOracle) (ts : List String) :
    ConnEvent.endConn ∉ (dropAll m oracle ts).1 := by
  induction ts with
  | nil => simp [dropAll]
  | cons t rest ih =>
    unfold dropAll
    split
    · simp
    · simpa using ih

theorem createAll_no_end (m : MysqlLib) (oracle : DbOracle) (ts : List String) :
    ConnEvent.endConn ∉ (createAll m oracle ts).1 := by
  induction ts with
  | nil => simp [createAll]
  | cons t rest ih =>
    unfold createAll
    split
    · simp
    · simpa using ih

theorem reset_end_iff (m : MysqlLib) (r : Restify) (oracle : DbOracle) :
    ConnEvent.endConn ∈ (Restify.reset m r oracle).1 ↔
      (Restify.reset m r oracle).2 = .ok () := by
  rcases h1 : oracle (stmtSelectTableName m r._database.db) with e1 | rows
  · simp [Restify.reset, h1]
  · rcases h2 : oracle (stmtSetForeignKeyCheck m false) with e2 | u2
    · simp [Restify.reset, h1, h2]
    · rcases h3 : dropAll m oracle rows with ⟨evs, res⟩
      have hd := dropAll_no_end m oracle rows
      rw [h3] at hd
      cases res with
      | error e3 => simp [Restify.reset, h1, h2, h3, hd]
      | ok u3 =>
        rcases h4 : oracle (stmtSetForeignKeyCheck m true) with e4 | u4
        · simp [Restify.reset, h1, h2, h3, h4, hd]
        · simp [Restify.reset, h1, h2, h3, h4]

theorem sync_end_iff (m : MysqlLib) (r : Restify) (u : Option Bool)
    (oracle : DbOracle) :
    ConnEvent.endConn ∈ (Restify.sync m r u oracle).1 ↔
      (Restify.sync m r u oracle).2 = .ok () := by
  rcases h1 : createAll m oracle (keysOf r._collections) with ⟨evs, res⟩
  have hc := createAll_no_end m oracle (keysOf r._collections)
  rw [h1] at hc
  cases res with
  | error e => simp [Restify.sync, h1, hc]
  | ok u1 => simp [Restify.sync, h1]

/-- C7 counterexample: when the very first statement execution of `reset`
rejects, the error surfaces and the connection is never released — no
`conn.end()` event appears on the trace (there is no try/finally). -/
theorem c7_counterexample :
    (Restify.reset plainEsc r0c (fun _ => .error "connection lost")).2 =
      .error "connection lost" ∧
    ConnEvent.endConn ∉
      (Restify.reset plainEsc r0c (fun _ => .error "connection lost")).1 := by
  refine ⟨rfl, ?_⟩
  intro hmem
  simp [Restify.reset, stmtSelectTableName, r0c, defaultDb, plainEsc] at hmem

/-- C7 amended: `reset` and `sync` release their connection exactly on the
all-statements-succeed path: when every statement execution succeeds the
trace ends the connection, and when any statement execution fails the
error is surfaced with no `conn.end()` on the trace. -/
theorem c7_release_only_on_success (m : MysqlLib) (r : Restify)
    (u : Option Bool) (oracle : DbOracle) :
    ((Restify.reset m r oracle).2 = .ok () →
      ConnEvent.endConn ∈ (Restify.reset m r oracle).1) ∧
    (∀ e, (Restify.reset m r oracle).2 = .error e →
      ConnEvent.endConn ∉ (Restify.reset m r oracle).1) ∧
    ((Restify.sync m r u oracle).2 = .ok () →
      ConnEvent.endConn ∈ (Restify.sync m r u oracle).1) ∧
    (∀ e, (Restify.sync m r u oracle).2 = .error e →
      ConnEvent.endConn ∉ (Restify.sync m r u oracle).1) := by
  refine ⟨fun h => (reset_end_iff m r oracle).mpr h, fun e he hm => ?_,
    fun h => (sync_end_iff m r u oracle).mpr h, fun e he hm => ?_⟩
  · have := (reset_end_iff m r oracle).mp hm
    rw [he] at this
    exact Except.noConfusion this
  · have := (sync_end_iff m r u oracle).mp hm
    rw [he] at this
    exact Except.noConfusion this

theorem c7_release_only_on_success_witness :
    ConnEvent.endConn ∈
      (Restify.reset plainEsc r0c (fun _ => .ok [])).1 ∧
    ConnEvent.endConn ∈
      (Restify.sync plainEsc r0c none (fun _ => .ok [])).1 :=
  ⟨(c7_release_only_on_success plainEsc r0c none (fun _ => .ok [])).1 rfl,
   (c7_release_only_on_success plainEsc r0c none (fun _ => .ok [])).2.2.1 rfl⟩

/-
C2 and C8: behaviour of the second pass on well-behaved documents.
-/

/-- The `master` flag a declared descriptor carries after the first pass:
set when `relation` is present (line 57) or when the input already carried
a truthy `master`. -/
def isMasterAfterInit (d : FieldDescr) : Bool := d.master || d.relation.isSome

/-- All (collection name, field name, declared descriptor) triples of a
document whose field the first pass marks master. -/
def masterEntries (doc : Schema) : List (String × String × FieldDescr) :=
  (doc.map (fun p => p.2.filterMap
    (fun q => if isMasterAfterInit q.2 then some (p.1, q.1, q.2) else none))).flatten

/-- The declared field names of a collection of the document. -/
def declaredKeys (doc : Schema) (cn : String) : List String :=
  match getKey doc cn with
  | none => []
  | some c => keysOf c

/-- Well-formedness of a document as a JS object: unique collection names
and unique field names (JS objects cannot carry duplicate keys). -/
def wellFormedDoc (doc : Schema) : Prop :=
  (keysOf doc).Nodup ∧ ∀ p ∈ doc, (keysOf p.2).Nodup

/-- No derived inverse field ever lands on an occupied or doubly-used key:
no master field is itself named `_id` (the implicit-id insertion would
replace it before the second pass), no derived (target, remote-name) pair
uses `_id` or a declared field name of the target collection, and distinct
master fields derive distinct (target, remote-name) pairs. -/
def noDerivedCollision (doc : Schema) : Prop :=
  (∀ e ∈ masterEntries doc, e.2.1 ≠ "_id") ∧
  (∀ e ∈ masterEntries doc,
    asKeyOf e.2.2 ≠ "_id" ∧ asKeyOf e.2.2 ∉ declaredKeys doc e.2.2.type) ∧
  (∀ e1 ∈ masterEntries doc, ∀ e2 ∈ masterEntries doc,
    e1.2.2.type = e2.2.2.type → asKeyOf e1.2.2 = asKeyOf e2.2.2 → e1 = e2)

/-- Every master field of the document carries one of the four recognized
relation kinds. -/
def validRelations (doc : Schema) : Prop :=
  ∀ e ∈ masterEntries doc,
    e.2.2.relation = some "OneToOne" ∨ e.2.2.relation = some "OneToMany" ∨
    e.2.2.relation = some "ManyToOne" ∨ e.2.2.relation = some "ManyToMany"

instance wellFormedDoc_decidable (doc : Schema) : Decidable (wellFormedDoc doc) := by
  unfold wellFormedDoc
  infer_instance

instance noDerivedCollision_decidable (doc : Schema) :
    Decidable (noDerivedCollision doc) := by
  unfold noDerivedCollision
  infer_instance

instance validRelations_decidable (doc : Schema) :
    Decidable (validRelations doc) := by
  unfold validRelations
  infer_instance

/-- The heap as the second pass first sees it: deep copy plus first pass. -/
def heapInit (doc : Schema) : Schema :=
  (jsonRoundTrip doc).map (fun p => (p.1, pass1Collection p.2))

/-- Both lookups of `this._collections[cn][fn]` at once. -/
def getField (s : Store) (cn fn : String) : Option FieldDescr :=
  match getKey s.heap cn with
  | none => none
  | some c => getKey c fn

theorem getKey_heapInit (doc : Schema) (cn : String) :
    getKey (heapInit doc) cn = (getKey doc cn).map pass1Collection := by
  rw [heapInit, jsonRoundTrip_eq, getKey_map]

theorem keysOf_heapInit (doc : Schema) : keysOf (heapInit doc) = keysOf doc := by
  rw [heapInit, jsonRoundTrip_eq, keysOf_map]

theorem pass1Field_master (d : FieldDescr) :
    (pass1Field d).master = isMasterAfterInit d := by
  unfold pass1Field isMasterAfterInit
  cases hn : d.nullable <;> cases hr : d.relation <;> simp [hn, hr]

theorem pass1Field_relation (d : FieldDescr) :
    (pass1Field d).relation = d.relation := by
  unfold pass1Field
  cases hn : d.nullable <;> cases hr : d.relation <;> simp [hn, hr]

theorem pass1Field_type (d : FieldDescr) : (pass1Field d).type = d.type := by
  unfold pass1Field
  cases hn : d.nullable <;> cases hr : d.relation <;> simp [hn, hr]

theorem pass1Field_as (d : FieldDescr) : (pass1Field d).as = d.as := by
  unfold pass1Field
  cases hn : d.nullable <;> cases hr : d.relation <;> simp [hn, hr]

theorem getKey_pass1Collection (c : Collection) (fn : String) :
    getKey (pass1Collection c) fn =
      (getKey (setKey c "_id" idDescr) fn).map pass1Field := by
  rw [pass1Collection, getKey_map]

theorem getKey_pass1Collection_id (c : Collection) :
    getKey (pass1Collection c) "_id" = some idDescr := by
  rw [getKey_pass1Collection, getKey_setKey_self]
  rfl

theorem getKey_pass1Collection_ne_id (c : Collection) (fn : String)
    (h : fn ≠ "_id") :
    getKey (pass1Collection c) fn = (getKey c fn).map pass1Field := by
  rw [getKey_pass1Collection, getKey_setKey_ne _ _ _ _ h]

theorem mem_keysOf_setKey {α : Type} (m : List (String × α)) (k : String)
    (v : α) (k' : String) (h : k' ∈ keysOf (setKey m k v)) :
    k' ∈ keysOf m ∨ k' = k := by
  by_cases hm : k ∈ keysOf m
  · rw [keysOf_setKey_mem _ _ _ hm] at h
    exact Or.inl h
  · rw [keysOf_setKey_not_mem _ _ _ hm] at h
    rcases List.mem_append.mp h with h1 | h1
    · exact Or.inl h1
    · exact Or.inr (List.mem_singleton.mp h1)

theorem keysOf_pass1Collection (c : Collection) :
    keysOf (pass1Collection c) = keysOf (setKey c "_id" idDescr) := by
  rw [pass1Collection, keysOf_map]

theorem nodup_keysOf_pass1Collection (c : Collection)
    (h : (keysOf c).Nodup) : (keysOf (pass1Collection c)).Nodup := by
  rw [keysOf_pass1Collection]
  by_cases hm : "_id" ∈ keysOf c
  · rw [keysOf_setKey_mem _ _ _ hm]
    exact h
  · rw [keysOf_setKey_not_mem _ _ _ hm]
    simp [List.nodup_append, h, hm]

theorem mem_masterEntries (doc : Schema) (cn fn : String) (c0 : Collection)
    (d : FieldDescr) (hc : getKey doc cn = some c0) (hf : getKey c0 fn = some d)
    (hm : isMasterAfterInit d = true) : (cn, fn, d) ∈ masterEntries doc := by
  unfold masterEntries
  rw [List.mem_flatten]
  refine ⟨c0.filterMap
    (fun q => if isMasterAfterInit q.2 then some (cn, q.1, q.2) else none), ?_, ?_⟩
  · have hp := mem_of_getKey_eq_some _ _ _ hc
    exact List.mem_map_of_mem
      (fun p => p.2.filterMap
        (fun q => if isMasterAfterInit q.2 then some (p.1, q.1, q.2) else none)) hp
  · rw [List.mem_filterMap]
    refine ⟨(fn, d), mem_of_getKey_eq_some _ _ _ hf, ?_⟩
    rw [hm]
    simp

/-- The invariant the second pass maintains on well-behaved documents:
collection names are unchanged, every collection has unique field names,
all first-pass fields are untouched, and any field carrying a truthy
`master` flag is a first-pass field (fields added by the second pass are
never master). -/
structure GoodState (doc : Schema) (s : Store) : Prop where
  keys_eq : keysOf s.heap = keysOf (heapInit doc)
  colls : ∀ cn c1, getKey (heapInit doc) cn = some c1 →
    ∃ c, getKey s.heap cn = some c ∧
      (keysOf c).Nodup ∧
      (∀ fn, getKey c1 fn ≠ none → getKey c fn = getKey c1 fn) ∧
      (∀ fn d', getKey c fn = some d' → d'.master = true → getKey c1 fn = some d')

theorem goodState_init (doc : Schema) (hWF : wellFormedDoc doc) (s : Store)
    (hs : s.heap = heapInit doc) : GoodState doc s := by
  constructor
  · rw [hs]
  · intro cn c1 h1
    refine ⟨c1, by rw [hs]; exact h1, ?_, fun fn h => rfl, fun fn d' h _ => h⟩
    rw [getKey_heapInit] at h1
    rcases hc0 : getKey doc cn with _ | c0
    · rw [hc0] at h1
      exact Option.noConfusion h1
    · rw [hc0] at h1
      simp only [Option.map_some'] at h1
      have hm := mem_of_getKey_eq_some _ _ _ hc0
      have hnd := hWF.2 _ hm
      rw [← Option.some.inj h1]
      exact nodup_keysOf_pass1Collection c0 hnd

/-- Every master-flagged field the second pass can see in a good state is
an untouched first-pass image of a declared master field, and is not named
`_id`. -/
theorem master_field_declared (doc : Schema) (s : Store)
    (hGS : GoodState doc s) (cn fn : String) (c : Collection) (d' : FieldDescr)
    (hc : getKey s.heap cn = some c) (hf : getKey c fn = some d')
    (hm : d'.master = true) :
    ∃ c0 d, getKey doc cn = some c0 ∧ getKey c0 fn = some d ∧
      d' = pass1Field d ∧ isMasterAfterInit d = true ∧ fn ≠ "_id" := by
  have hmemcn : cn ∈ keysOf (heapInit doc) := by
    rw [← hGS.keys_eq]
    exact mem_keysOf_of_getKey _ _ _ hc
  obtain ⟨c1, hc1⟩ := getKey_isSome_of_mem _ _ hmemcn
  obtain ⟨c', hc', hnd, hold, hmaster⟩ := hGS.colls cn c1 hc1
  have hcc : c' = c := by
    rw [hc] at hc'
    exact (Option.some.inj hc').symm
  subst hcc
  have h1 : getKey c1 fn = some d' := hmaster fn d' hf hm
  rw [getKey_heapInit] at hc1
  rcases hc0 : getKey doc cn with _ | c0
  · rw [hc0] at hc1
    exact Option.noConfusion hc1
  · rw [hc0] at hc1
    simp only [Option.map_some'] at hc1
    have hc1' : c1 = pass1Collection c0 := (Option.some.inj hc1).symm
    subst hc1'
    by_cases hid : fn = "_id"
    · subst hid
      rw [getKey_pass1Collection_id] at h1
      have : idDescr = d' := Option.some.inj h1
      rw [← this] at hm
      exact absurd hm (by decide)
    · rw [getKey_pass1Collection_ne_id _ _ hid] at h1
      rcases hd : getKey c0 fn with _ | d
      · rw [hd] at h1
        exact Option.noConfusion h1
      · rw [hd] at h1
        simp only [Option.map_some'] at h1
        have hdd : d' = pass1Field d := (Option.some.inj h1).symm
        refine ⟨c0, d, rfl, hd, hdd, ?_, hid⟩
        rw [← pass1Field_master, ← hdd]
        exact hm

def ownsPair (doc : Schema) (cn fn B R : String) : Prop :=
  ∃ c0 d, getKey doc cn = some c0 ∧ getKey c0 fn = some d ∧
    isMasterAfterInit d = true ∧ d.type = B ∧ asKeyOf d = R

theorem asKeyOf_pass1Field (d : FieldDescr) :
    asKeyOf (pass1Field d) = asKeyOf d := by
  unfold asKeyOf
  rw [pass1Field_as]

theorem mkDerived_master (a b c : String) : (mkDerived a b c).master = false := rfl

theorem declaredKeys_eq (doc : Schema) (cn : String) (c0 : Collection)
    (h : getKey doc cn = some c0) : declaredKeys doc cn = keysOf c0 := by
  unfold declaredKeys
  rw [h]

theorem deriveField_master_eq (s : Store) (cn fn : String) (c : Collection)
    (field : FieldDescr) (hc : getKey s.heap cn = some c)
    (hf : getKey c fn = some field) (hm : field.master = true) :
    deriveField s cn fn =
      match field.relation with
      | none => (s, some (.thrown "Undefined relation undefined."))
      | some rel =>
        match invRelation rel with
        | .error e => (s, some e)
        | .ok inv =>
          match getKey s.heap field.type with
          | none => (s, some .typeError)
          | some targetColl =>
            (writeHeap s (setKey s.heap field.type
              (setKey targetColl (asKeyOf field)
                (mkDerived cn fn inv))), none) := by
  simp only [deriveField, hc, hf, hm, if_true]

theorem goodState_write (doc : Schema) (hH : noDerivedCollision doc) (s : Store)
    (hGS : GoodState doc s) (cn fn : String) (c : Collection)
    (field : FieldDescr) (tc : Collection) (inv : String)
    (hc : getKey s.heap cn = some c) (hf : getKey c fn = some field)
    (hm : field.master = true) (htc : getKey s.heap field.type = some tc) :
    GoodState doc (writeHeap s (setKey s.heap field.type
      (setKey tc (asKeyOf field) (mkDerived cn fn inv)))) := by
  obtain ⟨c0, d, hc0, hd0, hdd, hmd, hid⟩ :=
    master_field_declared doc s hGS cn fn c field hc hf hm
  have hmem := mem_masterEntries doc cn fn c0 d hc0 hd0 hmd
  have hfresh := hH.2.1 (cn, fn, d) hmem
  have htype : field.type = d.type := by rw [hdd, pass1Field_type]
  have hasK : asKeyOf field = asKeyOf d := by rw [hdd, asKeyOf_pass1Field]
  constructor
  · show keysOf (setKey s.heap field.type _) = _
    rw [keysOf_setKey_mem _ _ _ (mem_keysOf_of_getKey _ _ _ htc)]
    exact hGS.keys_eq
  · intro cn' c1' h1'
    by_cases hcn' : cn' = field.type
    · subst hcn'
      obtain ⟨cold, hcold, hnd, hold, hmaster⟩ := hGS.colls _ c1' h1'
      have hctc : cold = tc := by
        rw [htc] at hcold
        exact (Option.some.inj hcold).symm
      subst hctc
      refine ⟨setKey cold (asKeyOf field) (mkDerived cn fn inv), ?_, ?_, ?_, ?_⟩
      · show getKey (setKey s.heap field.type _) field.type = _
        rw [getKey_setKey_self]
      · by_cases hmemk : asKeyOf field ∈ keysOf cold
        · rw [keysOf_setKey_mem _ _ _ hmemk]
          exact hnd
        · rw [keysOf_setKey_not_mem _ _ _ hmemk]
          simp [List.nodup_append, hnd, hmemk]
      · intro fn' hne'
        by_cases hfn' : fn' = asKeyOf field
        · exfalso
          subst hfn'
          rw [getKey_heapInit] at h1'
          rcases hc0' : getKey doc field.type with _ | c0'
          · rw [hc0'] at h1'
            exact Option.noConfusion h1'
          · rw [hc0'] at h1'
            simp only [Option.map_some'] at h1'
            have h1'' : c1' = pass1Collection c0' := (Option.some.inj h1').symm
            have hmemc1 : asKeyOf field ∈ keysOf c1' := by
              rcases hx : getKey c1' (asKeyOf field) with _ | v
              · exact absurd hx hne'
              · exact mem_keysOf_of_getKey _ _ _ hx
            rw [h1'', keysOf_pass1Collection] at hmemc1
            rcases mem_keysOf_setKey _ _ _ _ hmemc1 with hx | hx
            · rw [hasK] at hx
              refine hfresh.2 ?_
              rw [htype] at hc0'
              rw [declaredKeys_eq doc d.type c0' hc0']
              exact hx
            · rw [hasK] at hx
              exact hfresh.1 hx
        · show getKey (setKey cold (asKeyOf field) _) fn' = _
          rw [getKey_setKey_ne _ _ _ _ hfn']
          exact hold fn' hne'
      · intro fn' d'' hget hmast
        by_cases hfn' : fn' = asKeyOf field
        · subst hfn'
          rw [getKey_setKey_self] at hget
          have hdm : d'' = mkDerived cn fn inv := (Option.some.inj hget).symm
          rw [hdm, mkDerived_master] at hmast
          exact Bool.noConfusion hmast
        · rw [getKey_setKey_ne _ _ _ _ hfn'] at hget
          exact hmaster fn' d'' hget hmast
    · obtain ⟨cold, hcold, hnd, hold, hmaster⟩ := hGS.colls _ c1' h1'
      refine ⟨cold, ?_, hnd, hold, hmaster⟩
      show getKey (setKey s.heap field.type _) cn' = _
      rw [getKey_setKey_ne _ _ _ _ hcn']
      exact hcold

theorem deriveField_GS (doc : Schema) (hH : noDerivedCollision doc) (s : Store)
    (hGS : GoodState doc s) (cn fn : String) :
    GoodState doc (deriveField s cn fn).1 := by
  unfold deriveField
  repeat' split
  all_goals try exact hGS
  rename_i xa c hc xb field hf hm xc rel hrel xd inv hinv xe tc htc
  exact goodState_write doc hH s hGS cn fn c field tc inv hc hf hm htc

theorem writeHeap_heap (s : Store) (d : Schema) : (writeHeap s d).heap = d := rfl

theorem deriveField_eq_relNone (s : Store) (cn fn : String) (c : Collection)
    (field : FieldDescr) (hc : getKey s.heap cn = some c)
    (hf : getKey c fn = some field) (hm : field.master = true)
    (hrel : field.relation = none) :
    deriveField s cn fn = (s, some (.thrown "Undefined relation undefined.")) := by
  simp only [deriveField, hc, hf, hm, if_true, hrel]

theorem deriveField_eq_invErr (s : Store) (cn fn : String) (c : Collection)
    (field : FieldDescr) (rel : String) (e : JsError)
    (hc : getKey s.heap cn = some c) (hf : getKey c fn = some field)
    (hm : field.master = true) (hrel : field.relation = some rel)
    (hinv : invRelation rel = .error e) :
    deriveField s cn fn = (s, some e) := by
  simp only [deriveField, hc, hf, hm, if_true, hrel, hinv]

theorem deriveField_eq_targetNone (s : Store) (cn fn : String) (c : Collection)
    (field : FieldDescr) (rel inv : String)
    (hc : getKey s.heap cn = some c) (hf : getKey c fn = some field)
    (hm : field.master = true) (hrel : field.relation = some rel)
    (hinv : invRelation rel = .ok inv)
    (htc : getKey s.heap field.type = none) :
    deriveField s cn fn = (s, some .typeError) := by
  simp only [deriveField, hc, hf, hm, if_true, hrel, hinv, htc]

theorem deriveField_write_eq (s : Store) (cn fn : String) (c : Collection)
    (field : FieldDescr) (tc : Collection) (rel inv : String)
    (hc : getKey s.heap cn = some c) (hf : getKey c fn = some field)
    (hm : field.master = true) (hrel : field.relation = some rel)
    (hinv : invRelation rel = .ok inv)
    (htc : getKey s.heap field.type = some tc) :
    deriveField s cn fn = (writeHeap s (setKey s.heap field.type
      (setKey tc (asKeyOf field) (mkDerived cn fn inv))), none) := by
  simp only [deriveField, hc, hf, hm, if_true, hrel, hinv, htc]

theorem deriveField_preserves (doc : Schema) (hH : noDerivedCollision doc)
    (s : Store) (hGS : GoodState doc s) (cn fn B R : String)
    (hno : ¬ ownsPair doc cn fn B R) :
    getField (deriveField s cn fn).1 B R = getField s B R := by
  unfold deriveField
  repeat' split
  all_goals try rfl
  rename_i xa c hc xb field hf hm xc rel hrel xd inv hinv xe tc htc
  obtain ⟨c0, d, hc0, hd0, hdd, hmd, hid⟩ :=
    master_field_declared doc s hGS cn fn c field hc hf hm
  have htype : field.type = d.type := by rw [hdd, pass1Field_type]
  have hasK : asKeyOf field = asKeyOf d := by rw [hdd, asKeyOf_pass1Field]
  have hpair : ¬ (field.type = B ∧ asKeyOf field = R) := by
    intro hp
    exact hno ⟨c0, d, hc0, hd0, hmd, by rw [← htype]; exact hp.1,
      by rw [← hasK]; exact hp.2⟩
  by_cases hB : field.type = B
  · have hR : asKeyOf field ≠ R := fun hr => hpair ⟨hB, hr⟩
    rw [hB] at htc
    simp only [getField, writeHeap_heap, hB, getKey_setKey_self, htc]
    exact getKey_setKey_ne _ _ _ _ (Ne.symm hR)
  · simp only [getField, writeHeap_heap]
    rw [getKey_setKey_ne _ _ _ _ (fun hh => hB hh.symm)]

theorem deriveField_ok_master (doc : Schema) (hH : noDerivedCollision doc)
    (s : Store) (hGS : GoodState doc s)
    (cn fn : String) (c0 : Collection) (d : FieldDescr)
    (hc0 : getKey doc cn = some c0) (hd0 : getKey c0 fn = some d)
    (hmd : isMasterAfterInit d = true) (s' : Store)
    (hok : deriveField s cn fn = (s', none)) :
    ∃ rel inv, d.relation = some rel ∧ invRelation rel = .ok inv ∧
      d.type ∈ keysOf doc ∧
      getField s' d.type (asKeyOf d) = some (mkDerived cn fn inv) := by
  have hid : fn ≠ "_id" :=
    hH.1 (cn, fn, d) (mem_masterEntries doc cn fn c0 d hc0 hd0 hmd)
  have h1 : getKey (heapInit doc) cn = some (pass1Collection c0) := by
    rw [getKey_heapInit, hc0]
    rfl
  obtain ⟨c, hc, hnd, hold, hmaster⟩ := hGS.colls cn (pass1Collection c0) h1
  have hp1 : getKey (pass1Collection c0) fn = some (pass1Field d) := by
    rw [getKey_pass1Collection_ne_id _ _ hid, hd0]
    rfl
  have hfield : getKey c fn = some (pass1Field d) := by
    rw [hold fn (by rw [hp1]; exact fun hh => Option.noConfusion hh)]
    exact hp1
  have hm : (pass1Field d).master = true := by
    rw [pass1Field_master]
    exact hmd
  rcases hrel : d.relation with _ | rel
  · rw [deriveField_eq_relNone s cn fn c (pass1Field d) hc hfield hm
      (by rw [pass1Field_relation]; exact hrel)] at hok
    simp at hok
  · have hrelf : (pass1Field d).relation = some rel := by
      rw [pass1Field_relation]
      exact hrel
    rcases hinv : invRelation rel with e' | inv
    · rw [deriveField_eq_invErr s cn fn c (pass1Field d) rel e' hc hfield hm
        hrelf hinv] at hok
      simp at hok
    · rcases htc : getKey s.heap d.type with _ | tc
      · rw [deriveField_eq_targetNone s cn fn c (pass1Field d) rel inv hc hfield
          hm hrelf hinv (by rw [pass1Field_type]; exact htc)] at hok
        simp at hok
      · rw [deriveField_write_eq s cn fn c (pass1Field d) tc rel inv hc hfield
          hm hrelf hinv (by rw [pass1Field_type]; exact htc)] at hok
        have hs' : s' = writeHeap s (setKey s.heap (pass1Field d).type
            (setKey tc (asKeyOf (pass1Field d)) (mkDerived cn fn inv))) :=
          ((Prod.mk.injEq _ _ _ _).mp hok).1.symm
        refine ⟨rel, inv, rfl, hinv, ?_, ?_⟩
        · rw [← keysOf_heapInit, ← hGS.keys_eq]
          exact mem_keysOf_of_getKey _ _ _ htc
        · rw [hs', pass1Field_type, asKeyOf_pass1Field]
          simp only [getField, writeHeap_heap, getKey_setKey_self]

theorem deriveField_err_typeError (doc : Schema) (hVR : validRelations doc)
    (s : Store) (hGS : GoodState doc s) (cn fn : String) (e : JsError)
    (h : (deriveField s cn fn).2 = some e) : e = .typeError := by
  unfold deriveField at h
  split at h
  · simp at h
  · rename_i c hc
    split at h
    · simp at h
    · rename_i field hf
      split at h
      · rename_i hm
        split at h
        · rename_i hrel
          obtain ⟨c0, d, hc0, hd0, hdd, hmd, hid⟩ :=
            master_field_declared doc s hGS cn fn c field hc hf hm
          have hdr : d.relation = none := by
            rw [hdd, pass1Field_relation] at hrel
            exact hrel
          have hmem := mem_masterEntries doc cn fn c0 d hc0 hd0 hmd
          rcases hVR _ hmem with h4 | h4 | h4 | h4 <;>
            (rw [hdr] at h4; exact Option.noConfusion h4)
        · rename_i rel hrel
          split at h
          · rename_i e' hinv
            obtain ⟨c0, d, hc0, hd0, hdd, hmd, hid⟩ :=
              master_field_declared doc s hGS cn fn c field hc hf hm
            have hdr : d.relation = some rel := by
              rw [hdd, pass1Field_relation] at hrel
              exact hrel
            have hmem := mem_masterEntries doc cn fn c0 d hc0 hd0 hmd
            rcases hVR _ hmem with h4 | h4 | h4 | h4 <;>
              (rw [hdr] at h4;
               rw [Option.some.inj h4] at hinv;
               simp [invRelation, ONE_TO_ONE, ONE_TO_MANY, MANY_TO_ONE,
                 MANY_TO_MANY] at hinv)
          · rename_i inv hinv
            split at h
            · simp at h
              exact h.symm
            · simp at h
      · simp at h

theorem deriveFields_cons (cn fn : String) (rest : List String) (s : Store) :
    deriveFields cn s (fn :: rest) =
      match deriveField s cn fn with
      | (s', some e) => (s', some e)
      | (s', none) => deriveFields cn s' rest := rfl

theorem pass2_cons (cn : String) (rest : List String) (s : Store) :
    pass2 s (cn :: rest) =
      match deriveCollection s cn with
      | (s', some e) => (s', some e)
      | (s', none) => pass2 s' rest := rfl

theorem deriveFields_GS (doc : Schema) (hH : noDerivedCollision doc)
    (cn : String) (fns : List String) (s : Store) (hGS : GoodState doc s) :
    GoodState doc (deriveFields cn s fns).1 := by
  induction fns generalizing s with
  | nil => exact hGS
  | cons fn rest ih =>
    unfold deriveFields
    rcases hf : deriveField s cn fn with ⟨s1, oe⟩
    have hGS1 : GoodState doc s1 := by
      have hstep := deriveField_GS doc hH s hGS cn fn
      rw [hf] at hstep
      exact hstep
    cases oe with
    | some e =>
      simp only [hf]
      exact hGS1
    | none =>
      simp only [hf]
      exact ih s1 hGS1

theorem deriveFields_preserves (doc : Schema) (hH : noDerivedCollision doc)
    (cn : String) (fns : List String) (s : Store) (hGS : GoodState doc s)
    (B R : String) (hno : ∀ fn ∈ fns, ¬ ownsPair doc cn fn B R) :
    getField (deriveFields cn s fns).1 B R = getField s B R := by
  induction fns generalizing s with
  | nil => rfl
  | cons fn rest ih =>
    unfold deriveFields
    rcases hf : deriveField s cn fn with ⟨s1, oe⟩
    have hGS1 : GoodState doc s1 := by
      have hstep := deriveField_GS doc hH s hGS cn fn
      rw [hf] at hstep
      exact hstep
    have hstep : getField s1 B R = getField s B R := by
      have hp := deriveField_preserves doc hH s hGS cn fn B R
        (hno fn (List.mem_cons_self _ _))
      rw [hf] at hp
      exact hp
    cases oe with
    | some e =>
      simp only [hf]
      exact hstep
    | none =>
      simp only [hf]
      rw [ih s1 hGS1 (fun fn' hm => hno fn' (List.mem_cons_of_mem _ hm)), hstep]

theorem deriveCollection_GS (doc : Schema) (hH : noDerivedCollision doc)
    (s : Store) (hGS : GoodState doc s) (cn : String) :
    GoodState doc (deriveCollection s cn).1 := by
  unfold deriveCollection
  split
  · exact hGS
  · exact deriveFields_GS doc hH cn _ s hGS

theorem deriveCollection_preserves (doc : Schema) (hH : noDerivedCollision doc)
    (s : Store) (hGS : GoodState doc s) (cn : String) (B R : String)
    (hno : ∀ fn, ¬ ownsPair doc cn fn B R) :
    getField (deriveCollection s cn).1 B R = getField s B R := by
  unfold deriveCollection
  split
  · rfl
  · exact deriveFields_preserves doc hH cn _ s hGS B R (fun fn _ => hno fn)

theorem pass2_GS (doc : Schema) (hH : noDerivedCollision doc)
    (names : List String) (s : Store) (hGS : GoodState doc s) :
    GoodState doc (pass2 s names).1 := by
  induction names generalizing s with
  | nil => exact hGS
  | cons cn rest ih =>
    unfold pass2
    rcases hc : deriveCollection s cn with ⟨s1, oe⟩
    have hGS1 : GoodState doc s1 := by
      have hstep := deriveCollection_GS doc hH s hGS cn
      rw [hc] at hstep
      exact hstep
    cases oe with
    | some e =>
      simp only [hc]
      exact hGS1
    | none =>
      simp only [hc]
      exact ih s1 hGS1

theorem pass2_preserves (doc : Schema) (hH : noDerivedCollision doc)
    (names : List String) (s : Store) (hGS : GoodState doc s) (B R : String)
    (hno : ∀ cn ∈ names, ∀ fn, ¬ ownsPair doc cn fn B R) :
    getField (pass2 s names).1 B R = getField s B R := by
  induction names generalizing s with
  | nil => rfl
  | cons cn rest ih =>
    unfold pass2
    rcases hc : deriveCollection s cn with ⟨s1, oe⟩
    have hGS1 : GoodState doc s1 := by
      have hstep := deriveCollection_GS doc hH s hGS cn
      rw [hc] at hstep
      exact hstep
    have hstep : getField s1 B R = getField s B R := by
      have hp := deriveCollection_preserves doc hH s hGS cn B R
        (hno cn (List.mem_cons_self _ _))
      rw [hc] at hp
      exact hp
    cases oe with
    | some e =>
      simp only [hc]
      exact hstep
    | none =>
      simp only [hc]
      rw [ih s1 hGS1 (fun cn' hm fn => hno cn' (List.mem_cons_of_mem _ hm) fn),
        hstep]

theorem deriveFields_err (doc : Schema) (hH : noDerivedCollision doc)
    (hVR : validRelations doc) (cn : String) (fns : List String) :
    ∀ s : Store, GoodState doc s → ∀ e : JsError,
    (deriveFields cn s fns).2 = some e → e = .typeError := by
  induction fns with
  | nil =>
    intro s hGS e h
    simp [deriveFields] at h
  | cons fn rest ih =>
    intro s hGS e h
    rcases hf : deriveField s cn fn with ⟨s1, oe⟩
    cases oe with
    | some e' =>
      have hval : deriveFields cn s (fn :: rest) = (s1, some e') := by
        rw [deriveFields_cons, hf]
      rw [hval] at h
      have he : e' = e := Option.some.inj h
      rw [← he]
      exact deriveField_err_typeError doc hVR s hGS cn fn e' (by rw [hf])
    | none =>
      have hval : deriveFields cn s (fn :: rest) = deriveFields cn s1 rest := by
        rw [deriveFields_cons, hf]
      rw [hval] at h
      have hGS1 : GoodState doc s1 := by
        have hstep := deriveField_GS doc hH s hGS cn fn
        rw [hf] at hstep
        exact hstep
      exact ih s1 hGS1 e h

theorem deriveCollection_err (doc : Schema) (hH : noDerivedCollision doc)
    (hVR : validRelations doc) (s : Store) (hGS : GoodState doc s)
    (cn : String) (e : JsError)
    (h : (deriveCollection s cn).2 = some e) : e = .typeError := by
  unfold deriveCollection at h
  split at h
  · simp at h
  · exact deriveFields_err doc hH hVR cn _ s hGS e h

theorem pass2_err (doc : Schema) (hH : noDerivedCollision doc)
    (hVR : validRelations doc) (names : List String) :
    ∀ s : Store, GoodState doc s → ∀ e : JsError,
    (pass2 s names).2 = some e → e = .typeError := by
  induction names with
  | nil =>
    intro s hGS e h
    simp [pass2] at h
  | cons cn rest ih =>
    intro s hGS e h
    rcases hc : deriveCollection s cn with ⟨s1, oe⟩
    cases oe with
    | some e' =>
      have hval : pass2 s (cn :: rest) = (s1, some e') := by
        rw [pass2_cons, hc]
      rw [hval] at h
      have he : e' = e := Option.some.inj h
      rw [← he]
      exact deriveCollection_err doc hH hVR s hGS cn e' (by rw [hc])
    | none =>
      have hval : pass2 s (cn :: rest) = pass2 s1 rest := by
        rw [pass2_cons, hc]
      rw [hval] at h
      have hGS1 : GoodState doc s1 := by
        have hstep := deriveCollection_GS doc hH s hGS cn
        rw [hc] at hstep
        exact hstep
      exact ih s1 hGS1 e h

theorem deriveFields_master (doc : Schema) (hH : noDerivedCollision doc)
    (cn : String) (c0 : Collection) (d : FieldDescr) (f : String)
    (hc0 : getKey doc cn = some c0) (hf0 : getKey c0 f = some d)
    (hmd : isMasterAfterInit d = true) (fns : List String) :
    ∀ s : Store, f ∈ fns → fns.Nodup → GoodState doc s →
    ∀ s', deriveFields cn s fns = (s', none) →
    ∃ rel inv, d.relation = some rel ∧ invRelation rel = .ok inv ∧
      d.type ∈ keysOf doc ∧
      getField s' d.type (asKeyOf d) = some (mkDerived cn f inv) := by
  induction fns with
  | nil =>
    intro s hmem
    exact absurd hmem (List.not_mem_nil _)
  | cons fn rest ih =>
    intro s hmem hnd hGS s' hok
    rcases hfd : deriveField s cn fn with ⟨s1, oe⟩
    cases oe with
    | some e =>
      have hval : deriveFields cn s (fn :: rest) = (s1, some e) := by
        rw [deriveFields_cons, hfd]
      rw [hval] at hok
      exact absurd ((Prod.mk.injEq _ _ _ _).mp hok).2 (by simp)
    | none =>
      have hval : deriveFields cn s (fn :: rest) = deriveFields cn s1 rest := by
        rw [deriveFields_cons, hfd]
      rw [hval] at hok
      have hGS1 : GoodState doc s1 := by
        have hstep := deriveField_GS doc hH s hGS cn fn
        rw [hfd] at hstep
        exact hstep
      by_cases hfe : fn = f
      · subst hfe
        obtain ⟨rel, inv, hrel, hinv, htype, hfld⟩ :=
          deriveField_ok_master doc hH s hGS cn fn c0 d hc0 hf0 hmd s1 hfd
        have hno : ∀ fn' ∈ rest, ¬ ownsPair doc cn fn' d.type (asKeyOf d) := by
          intro fn' hm' hop
          obtain ⟨c0', d', hc0', hd0', hmd', htyp', hask'⟩ := hop
          have hmem1 := mem_masterEntries doc cn fn c0 d hc0 hf0 hmd
          have hmem2 := mem_masterEntries doc cn fn' c0' d' hc0' hd0' hmd'
          have heq3 := hH.2.2 _ hmem2 _ hmem1 htyp' hask'
          have hff : fn' = fn := congrArg Prod.fst (congrArg Prod.snd heq3)
          rw [hff] at hm'
          exact (List.nodup_cons.mp hnd).1 hm'
        have hpres := deriveFields_preserves doc hH cn rest s1 hGS1
          d.type (asKeyOf d) hno
        rw [hok] at hpres
        have hpres' : getField s' d.type (asKeyOf d) =
            getField s1 d.type (asKeyOf d) := hpres
        refine ⟨rel, inv, hrel, hinv, htype, ?_⟩
        rw [hpres']
        exact hfld
      · have hmem' : f ∈ rest := by
          rcases List.mem_cons.mp hmem with h | h
          · exact absurd h.symm hfe
          · exact h
        exact ih s1 hmem' (List.nodup_cons.mp hnd).2 hGS1 s' hok

theorem pass2_master (doc : Schema) (hH : noDerivedCollision doc)
    (A : String) (c0 : Collection) (d : FieldDescr) (f : String)
    (hc0 : getKey doc A = some c0) (hf0 : getKey c0 f = some d)
    (hmd : isMasterAfterInit d = true) (names : List String) :
    ∀ s : Store, A ∈ names → names.Nodup → GoodState doc s →
    ∀ s', pass2 s names = (s', none) →
    ∃ rel inv, d.relation = some rel ∧ invRelation rel = .ok inv ∧
      d.type ∈ keysOf doc ∧
      getField s' d.type (asKeyOf d) = some (mkDerived A f inv) := by
  induction names with
  | nil =>
    intro s hmem
    exact absurd hmem (List.not_mem_nil _)
  | cons cn rest ih =>
    intro s hmem hnd hGS s' hok
    rcases hdc : deriveCollection s cn with ⟨s1, oe⟩
    cases oe with
    | some e =>
      have hval : pass2 s (cn :: rest) = (s1, some e) := by
        rw [pass2_cons, hdc]
      rw [hval] at hok
      exact absurd ((Prod.mk.injEq _ _ _ _).mp hok).2 (by simp)
    | none =>
      have hval : pass2 s (cn :: rest) = pass2 s1 rest := by
        rw [pass2_cons, hdc]
      rw [hval] at hok
      have hGS1 : GoodState doc s1 := by
        have hstep := deriveCollection_GS doc hH s hGS cn
        rw [hdc] at hstep
        exact hstep
      by_cases hA : cn = A
      · subst hA
        have hid : f ≠ "_id" :=
          hH.1 (cn, f, d) (mem_masterEntries doc cn f c0 d hc0 hf0 hmd)
        have h1 : getKey (heapInit doc) cn = some (pass1Collection c0) := by
          rw [getKey_heapInit, hc0]
          rfl
        obtain ⟨c', hc', hnd', hold, hmaster⟩ := hGS.colls cn (pass1Collection c0) h1
        have hval2 : deriveCollection s cn = deriveFields cn s (keysOf c') := by
          unfold deriveCollection
          rw [hc']
        rw [hval2] at hdc
        have hp1 : getKey (pass1Collection c0) f = some (pass1Field d) := by
          rw [getKey_pass1Collection_ne_id _ _ hid, hf0]
          rfl
        have hfmem : f ∈ keysOf c' := by
          have hcf : getKey c' f = some (pass1Field d) := by
            rw [hold f (by rw [hp1]; exact fun hh => Option.noConfusion hh)]
            exact hp1
          exact mem_keysOf_of_getKey _ _ _ hcf
        obtain ⟨rel, inv, hrel, hinv, htype, hfld⟩ :=
          deriveFields_master doc hH cn c0 d f hc0 hf0 hmd (keysOf c')
            s hfmem hnd' hGS s1 hdc
        have hno : ∀ cn' ∈ rest, ∀ fn', ¬ ownsPair doc cn' fn' d.type (asKeyOf d) := by
          intro cn' hm' fn' hop
          obtain ⟨c0', d', hc0', hd0', hmd', htyp', hask'⟩ := hop
          have hmem1 := mem_masterEntries doc cn f c0 d hc0 hf0 hmd
          have hmem2 := mem_masterEntries doc cn' fn' c0' d' hc0' hd0' hmd'
          have heq3 := hH.2.2 _ hmem2 _ hmem1 htyp' hask'
          have hcn' : cn' = cn := congrArg Prod.fst heq3
          rw [hcn'] at hm'
          exact (List.nodup_cons.mp hnd).1 hm'
        have hpres := pass2_preserves doc hH rest s1 hGS1 d.type (asKeyOf d) hno
        rw [hok] at hpres
        have hpres' : getField s' d.type (asKeyOf d) =
            getField s1 d.type (asKeyOf d) := hpres
        refine ⟨rel, inv, hrel, hinv, htype, ?_⟩
        rw [hpres']
        exact hfld
      · have hmem' : A ∈ rest := by
          rcases List.mem_cons.mp hmem with h | h
          · exact absurd h.symm hA
          · exact h
        exact ih s1 hmem' (List.nodup_cons.mp hnd).2 hGS1 s' hok

theorem pass1Store_initial (config : Config) :
    pass1Store (initialStore config) =
      { caller := config.schema, heap := heapInit config.schema,
        aliased := false } := rfl

theorem resolve_eq (doc : Schema) :
    resolve doc =
      match pass2 { caller := doc, heap := heapInit doc, aliased := false }
          (keysOf (heapInit doc)) with
      | (_, some e) => .error e
      | (s2, none) => .ok s2.heap := by
  unfold resolve construct runConstructor
  rw [pass1Store_initial]
  rcases hp : pass2 { caller := doc, heap := heapInit doc, aliased := false }
      (keysOf (heapInit doc)) with ⟨s2, oe⟩
  cases oe <;> simp [hp]

/-- Claim C2 counterexample: on `docC2bad`, where two master fields `f1`
and `f2` both declare `as = "r"` towards `B`, resolution succeeds but the
resolved `B.r` carries `as = "f2"` — the derived inverse field for `f1`
demanded by the claim (with `as = "f1"`) is not present. -/
theorem c2_counterexample :
    resolve docC2bad = .ok resolvedC2bad ∧
    ¬ ((getKey resolvedC2bad "B").bind (fun c => getKey c "r") =
        some { type := "A", nullable := some (.bool false),
               relation := some "OneToOne", as := some "f1", master := false }) := by
  refine ⟨rfl, by decide⟩

/-- Claim C2, amended: for every document that resolves successfully and is
well-formed, PROVIDED no master field is named `_id`, no two master fields
derive the same (target, remote-name) pair, and no derived remote name
collides with `_id` or a declared field of the target (`noDerivedCollision`),
every master field F on collection A with `relation = K` and `as = R`
materializes on the resolved target collection `F.type` a field named R
with `type = A`, `nullable = false` (boolean), `relation = inverse K`,
`as = F`'s own name, and no master mark. -/
theorem c2_inverse_field_materialized (doc resolved : Schema)
    (hok : resolve doc = .ok resolved)
    (hWF : wellFormedDoc doc) (hH : noDerivedCollision doc)
    (A f : String) (c0 : Collection) (d : FieldDescr)
    (hA : getKey doc A = some c0) (hf : getKey c0 f = some d)
    (k : String) (hrel : d.relation = some k) (R : String) (hAs : d.as = some R) :
    ∃ inv, invRelation k = .ok inv ∧
      ∃ cB, getKey resolved d.type = some cB ∧
        getKey cB R = some { type := A, nullable := some (.bool false),
                             relation := some inv, as := some f,
                             master := false } := by
  rw [resolve_eq] at hok
  rcases hp : pass2 { caller := doc, heap := heapInit doc, aliased := false }
      (keysOf (heapInit doc)) with ⟨s2, oe⟩
  rw [hp] at hok
  cases oe with
  | some e => exact absurd hok (by simp)
  | none =>
    have hok2 : Except.ok (ε := JsError) s2.heap = Except.ok resolved := hok
    have hres : resolved = s2.heap := (Except.ok.inj hok2).symm
    have hmd : isMasterAfterInit d = true := by
      simp [isMasterAfterInit, hrel]
    have hGS0 : GoodState doc
        { caller := doc, heap := heapInit doc, aliased := false } :=
      goodState_init doc hWF _ rfl
    have hmemA : A ∈ keysOf (heapInit doc) := by
      rw [keysOf_heapInit]
      exact mem_keysOf_of_getKey _ _ _ hA
    have hndn : (keysOf (heapInit doc)).Nodup := by
      rw [keysOf_heapInit]
      exact hWF.1
    obtain ⟨rel, inv, hrel', hinv, htype, hfld⟩ :=
      pass2_master doc hH A c0 d f hA hf hmd (keysOf (heapInit doc))
        _ hmemA hndn hGS0 s2 hp
    have hkr : rel = k := by
      rw [hrel] at hrel'
      exact (Option.some.inj hrel').symm
    subst hkr
    have hask : asKeyOf d = R := by
      rw [asKeyOf, hAs]
      rfl
    refine ⟨inv, hinv, ?_⟩
    rw [hres]
    unfold getField at hfld
    rcases hcB : getKey s2.heap d.type with _ | cB
    · rw [hcB] at hfld
      simp at hfld
    · rw [hcB] at hfld
      have hfld2 : getKey cB (asKeyOf d) = some (mkDerived A f inv) := hfld
      refine ⟨cB, rfl, ?_⟩
      rw [← hask]
      exact hfld2

def specDoc : Schema :=
  [("User", [("name", { type := "string" }),
             ("profile", { type := "Profile", relation := some "OneToOne",
                           as := some "owner" })]),
   ("Profile", [("bio", { type := "string" })])]

def specResolved : Schema :=
  [("User", [("name", { type := "string", nullable := some (.bool true) }),
             ("profile", { type := "Profile", nullable := some (.bool true),
                           relation := some "OneToOne", as := some "owner",
                           master := true }),
             ("_id", idDescr)]),
   ("Profile", [("bio", { type := "string", nullable := some (.bool true) }),
                ("_id", idDescr),
                ("owner", mkDerived "User" "profile" "OneToOne")])]

/-- Claim C2 witness: the spec's own example document, with the derived
`Profile.owner` field exactly as stated. -/
theorem c2_inverse_field_materialized_witness :
    ∃ inv, invRelation "OneToOne" = .ok inv ∧
      ∃ cB, getKey specResolved "Profile" = some cB ∧
        getKey cB "owner" = some { type := "User",
                                   nullable := some (.bool false),
                                   relation := some inv,
                                   as := some "profile", master := false } :=
  c2_inverse_field_materialized specDoc specResolved rfl (by decide) (by decide)
    "User" "profile" _ _ rfl rfl "OneToOne" rfl "owner" rfl

/-- Claim C8 counterexample: `docC8bad` contains the master field `A.f`
whose `type` names the absent collection "Nope", yet resolution SUCCEEDS:
`B.g` is processed first and its derived inverse field overwrites `A.f`
before `A` is processed, erasing the master mark. -/
theorem c8_counterexample : resolve docC8bad = .ok resolvedC8bad := rfl

/-- Claim C8, amended: for a well-formed document with no derived-name
collisions (so the offending master field is not overwritten before it is
processed) and all relation kinds among the four recognized ones, a master
field whose `type` names an absent collection makes resolution fail — with
the TypeError that dereferencing the absent collection raises (the code's
form of the unknown-collection failure) — and no schema object is produced;
and `fields(name)` for a name absent from a resolved schema fails with the
same TypeError (`Object.keys(undefined)`). -/
theorem c8_unknown_collection_failure (doc : Schema)
    (hWF : wellFormedDoc doc) (hH : noDerivedCollision doc)
    (hVR : validRelations doc)
    (A f : String) (c0 : Collection) (d : FieldDescr)
    (hA : getKey doc A = some c0) (hf : getKey c0 f = some d)
    (hmd : isMasterAfterInit d = true) (hbad : d.type ∉ keysOf doc) :
    resolve doc = .error .typeError ∧
    ∀ (r : Restify) (name : String), getKey r._collections name = none →
      Restify.fields r name = .error .typeError := by
  constructor
  · rw [resolve_eq]
    rcases hp : pass2 { caller := doc, heap := heapInit doc, aliased := false }
        (keysOf (heapInit doc)) with ⟨s2, oe⟩
    have hGS0 : GoodState doc
        { caller := doc, heap := heapInit doc, aliased := false } :=
      goodState_init doc hWF _ rfl
    cases oe with
    | none =>
      obtain ⟨rel, inv, hrel', hinv, htype, hfld⟩ :=
        pass2_master doc hH A c0 d f hA hf hmd (keysOf (heapInit doc))
          _ (by rw [keysOf_heapInit]; exact mem_keysOf_of_getKey _ _ _ hA)
          (by rw [keysOf_heapInit]; exact hWF.1) hGS0 s2 hp
      exact absurd htype hbad
    | some e =>
      have he : e = .typeError :=
        pass2_err doc hH hVR (keysOf (heapInit doc)) _ hGS0 e (by rw [hp])
      subst he
      rfl
  · intro r name h
    simp [Restify.fields, h]

def docC8simple : Schema :=
  [("A", [("f", { type := "Nope", relation := some "OneToOne", as := some "x" })])]

/-- Claim C8 witness: a one-collection document whose single master field
references the absent collection "Nope". -/
theorem c8_unknown_collection_failure_witness :
    resolve docC8simple = .error .typeError ∧
    Restify.fields r0c "NoSuchCollection" = .error .typeError :=
  ⟨(c8_unknown_collection_failure docC8simple (by decide) (by decide) (by decide)
      "A" "f" _ _ rfl rfl (by decide) (by decide)).1,
   (c8_unknown_collection_failure docC8simple (by decide) (by decide) (by decide)
      "A" "f" _ _ rfl rfl (by decide) (by decide)).2 r0c "NoSuchCollection" rfl⟩
